import Mathlib

/-!
Shallow embedding of `lddgraph.cpp`: the string helpers, the node/edge graph
model, the ELF sniffer, the line-oriented report parser, the edge
reconciliation pass, the DOT edge rendering and the argument check of `main`.
Nodes are kept in an arena (a list of path strings); edges refer to nodes by
index, which models C++ pointer identity (nodes are never removed).
-/

/-! ## String helpers (lddgraph.cpp lines 96-127) -/

/-- C++ `trim_front`: remove `x` from the front of `s` when present. -/
def trim_front (s x : String) : String :=
  if List.take x.data.length s.data = x.data then
    String.mk (List.drop x.data.length s.data)
  else s

/-- C++ `ends_with`: detect `x` at the end of `s`. -/
def ends_with (s x : String) : Bool :=
  decide (x.data.length ≤ s.data.length) &&
    decide (List.drop (s.data.length - x.data.length) s.data = x.data)

/-- C++ `trim_end`: remove `x` from the end of `s` when present. -/
def trim_end (s x : String) : String :=
  if ends_with s x then
    String.mk (List.take (s.data.length - x.data.length) s.data)
  else s

/-- C++ `has_outer_parens`: `")"` at the end and `'('` as first character
(`s[0]` of an empty C++ string reads as the NUL character). -/
def has_outer_parens (s : String) : Bool :=
  ends_with s ")" && (s.data.headD (Char.ofNat 0) == '(')

/-- C++ `trim_outer_parens`: `s.substr(1, s.size() - 2)` when the outer
parentheses are present. -/
def trim_outer_parens (s : String) : String :=
  if has_outer_parens s then String.mk (List.dropLast (List.drop 1 s.data)) else s

/-! ## Graph model (Node, Edge) -/

/-- An edge of the dependency graph; `from_` and `to` are indices into the
node arena (modelling the C++ `Node *` identity), `labels` the ordered
symbol-version strings. -/
structure Edge where
  from_ : Nat
  to_ : Nat
  labels : List String
deriving Repr, DecidableEq

/-- C++ `Edge::getLabels`: join the labels with `delimiter`. -/
def Edge.getLabels (e : Edge) (delimiter : String) : String :=
  match e.labels with
  | [] => ""
  | l :: rest => List.foldl (fun acc x => acc ++ delimiter ++ x) l rest

/-- C++ `Edge::isLabeled`: the edge counts as labeled when the space-joined
label list is a non-empty string. -/
def Edge.isLabeled (e : Edge) : Bool :=
  e.getLabels " " != ""

/-! ## ELF sniffer (lddgraph.cpp lines 250-310)

The file system is abstracted as `Option (List Nat)`: `none` when the file
cannot be opened, otherwise the byte content.  `fread` of the 18-byte header
(EI_NIDENT = 16 plus a 2-byte type field) obtains `min length 18` bytes; a
count of zero takes the C++ `fread failed` fatal path. -/

/-- Result of `is_ELF_file`: either a fatal process exit or a boolean. -/
inductive ELFCheck where
  | fatal : ELFCheck
  | result : Bool → ELFCheck
deriving Repr, DecidableEq

/-- Size of the inspected header: `EI_NIDENT + sizeof(Elf64_Half)`. -/
def elf_header_len : Nat := 18

/-- C++ `is_ELF_file`, over the abstracted file content.  The magic, class,
data-encoding, version and (endianness-respecting) type checks follow
lddgraph.cpp lines 285-293 with ELFMAG = 0x7f 'E' 'L' 'F', ELFCLASS32/64 =
1/2, ELFDATA2LSB/MSB = 1/2, EV_CURRENT = 1 and ET_DYN = 3. -/
def is_ELF_file : Option (List Nat) → ELFCheck
  | none => ELFCheck.fatal
  | some bytes =>
    let n := min bytes.length elf_header_len
    if n = 0 then ELFCheck.fatal
    else if n < elf_header_len then ELFCheck.result false
    else
      if bytes.getD 0 0 = 0x7f ∧ bytes.getD 1 0 = 0x45 ∧
          bytes.getD 2 0 = 0x4c ∧ bytes.getD 3 0 = 0x46 ∧
          (bytes.getD 4 0 = 1 ∨ bytes.getD 4 0 = 2) ∧
          (bytes.getD 5 0 = 1 ∨ bytes.getD 5 0 = 2) ∧
          bytes.getD 6 0 = 1 ∧
          ((bytes.getD 5 0 = 1 ∧ bytes.getD 16 0 = 3 ∧ bytes.getD 17 0 = 0) ∨
           (bytes.getD 5 0 = 2 ∧ bytes.getD 16 0 = 0 ∧ bytes.getD 17 0 = 3)) then
        ELFCheck.result true
      else ELFCheck.result false

/-! ## Parser state -/

/-- The mutable state of the C++ `Parser` together with the node and edge
vectors it builds.  `nodes` is the arena of node path strings; `cur_node`
and `not_found_node` are arena indices. -/
structure PState where
  path : String
  real_path_pending : Bool
  cur_node : Nat
  got_version_info : Bool
  not_found_node : Option Nat
  nodes : List String
  edges : List Edge
deriving Repr, DecidableEq

/-- Result of processing one line: a new state, a fatal process exit, or an
out-of-bounds vector access (undefined behavior in the C++). -/
inductive LineResult where
  | ok : PState → LineResult
  | fatal : String → LineResult
  | oob : LineResult
deriving Repr, DecidableEq

/-- C++ `Parser::find_existing_node`: index of the first node whose path
equals `p` (the fatal exit on failure is placed at the call sites). -/
def find_existing_node : List String → String → Option Nat
  | [], _ => none
  | q :: rest, p =>
    if q = p then some 0
    else (find_existing_node rest p).map (fun i => i + 1)

/-- C++ `Parser::find_edge_from_to`: index of the first edge with the given
source and destination node. -/
def find_edge_from_to : List Edge → Nat → Nat → Option Nat
  | [], _, _ => none
  | e :: rest, fr, t =>
    if e.from_ = fr ∧ e.to_ = t then some 0
    else (find_edge_from_to rest fr t).map (fun i => i + 1)

/-- C++ `Parser::find_edge_labeled_to`: index of the first labeled edge with
destination `t`. -/
def find_edge_labeled_to : List Edge → Nat → Option Nat
  | [], _ => none
  | e :: rest, t =>
    if e.isLabeled && e.to_ == t then some 0
    else (find_edge_labeled_to rest t).map (fun i => i + 1)

/-- In-place update of the element at index `i`, modelling mutation through
the pointer returned by `find_edge_from_to`. -/
def modify_at : List Edge → Nat → (Edge → Edge) → List Edge
  | [], _, _ => []
  | e :: rest, 0, g => g e :: rest
  | e :: rest, n + 1, g => e :: modify_at rest n g

/-- The library identifier of a header direct-dependency line
(lddgraph.cpp lines 414-424): the resolved path field `f[2]` on 4-field
lines, the raw name `f[0]` otherwise, and `f[0]` again on `=> not found`. -/
def dep_ident (f : List String) : String :=
  trim_front
    (if f.length = 4 ∧ f.getD 2 "" = "not" ∧ f.getD 3 "" = "found" then f.getD 0 ""
     else if f.length = 4 then f.getD 2 "" else f.getD 0 "")
    "./"

/-- Header-mode direct-dependency handling (lddgraph.cpp lines 411-446):
always push a brand-new node for the identifier and an unlabeled edge from
`cur_node` to it; on `not found`, also link to the shared sink node,
creating it on first use. -/
def header_dep_line (f : List String) (s : PState) : PState :=
  let not_found := f.length = 4 ∧ f.getD 2 "" = "not" ∧ f.getD 3 "" = "found"
  let sub_idx := s.nodes.length
  let nodes1 := s.nodes ++ [dep_ident f]
  let edges1 := s.edges ++ [Edge.mk s.cur_node sub_idx []]
  if not_found then
    match s.not_found_node with
    | none =>
      { s with nodes := nodes1 ++ ["not found"],
               not_found_node := some nodes1.length,
               edges := edges1 ++ [Edge.mk sub_idx nodes1.length []] }
    | some nf =>
      { s with nodes := nodes1,
               edges := edges1 ++ [Edge.mk sub_idx nf []] }
  else
    { s with nodes := nodes1, edges := edges1 }

/-- Version-info per-library heading `path:` (lddgraph.cpp lines 455-472):
strip the colon and `./`, adopt the path into the root node when the real
path is still pending, then make the found node current (fatal if absent). -/
def heading_line (f0 : String) (s : PState) : LineResult :=
  let field := trim_front (trim_end f0 ":") "./"
  let s1 :=
    if s.real_path_pending then
      { s with nodes := s.nodes.set 0 field, path := field,
               real_path_pending := false }
    else s
  match find_existing_node s1.nodes field with
  | none => LineResult.fatal (field ++ ": cannot find prior reference!")
  | some i => LineResult.ok { s1 with cur_node := i }

/-- Outcome of evaluating the malformed-line guard
`f.size() != 4 && has_outer_parens(f[1]) && f[2] == "=>"`
(lddgraph.cpp line 476) with C++ short-circuit order; `oob` marks an
out-of-bounds `f[1]` / `f[2]` access. -/
inductive GuardOutcome where
  | oob : GuardOutcome
  | matched : GuardOutcome
  | fall : GuardOutcome
deriving Repr, DecidableEq

/-- Evaluate the lddgraph.cpp line 476 guard. -/
def guard_eval (f : List String) : GuardOutcome :=
  if f.length = 4 then GuardOutcome.fall
  else
    match f.get? 1 with
    | none => GuardOutcome.oob
    | some f1 =>
      if has_outer_parens f1 then
        match f.get? 2 with
        | none => GuardOutcome.oob
        | some f2 => if f2 = "=>" then GuardOutcome.matched else GuardOutcome.fall
      else GuardOutcome.fall

/-- The version-requirement fall-through (lddgraph.cpp lines 482-497):
read `f[1]` and `f[3]`, look up the destination node (fatal if absent), then
append the version to the first existing edge from `cur_node` to it, or
create a new edge carrying that single label. -/
def version_line (f : List String) (s : PState) : LineResult :=
  match f.get? 1 with
  | none => LineResult.oob
  | some f1 =>
    match f.get? 3 with
    | none => LineResult.oob
    | some f3 =>
      let version := trim_outer_parens f1
      let field := trim_front f3 "./"
      match find_existing_node s.nodes field with
      | none => LineResult.fatal (field ++ ": cannot find prior reference!")
      | some sub =>
        match find_edge_from_to s.edges s.cur_node sub with
        | none =>
          LineResult.ok { s with edges := s.edges ++ [Edge.mk s.cur_node sub [version]] }
        | some i =>
          let edges2 :=
            modify_at s.edges i (fun e => { e with labels := e.labels ++ [version] })
          LineResult.ok { s with edges := edges2 }

/-- C++ `Parser::process_line` on one tokenized line, with the branch
conditions in source order (lddgraph.cpp lines 354-498). -/
def process_line (f : List String) (s : PState) : LineResult :=
  if f.length = 0 then LineResult.ok s
  else if f.length = 4 ∧ f.getD 0 "" = "not" ∧ f.getD 1 "" = "a" then
    LineResult.fatal (s.path ++ ": not a dynamically loaded file")
  else if f.length = 5 ∧ ends_with (f.getD 0 "") ":" = true ∧
      ends_with (f.getD 1 "") ":" = true ∧
      f.getD 2 "" = "version" ∧ f.getD 4 "" = "not" then
    LineResult.ok s
  else if f.length = 2 ∧ f.getD 0 "" = "Version" ∧ f.getD 1 "" = "information:" then
    LineResult.ok { s with got_version_info := true }
  else if s.got_version_info = false ∧
      (f.length = 2 ∨ f.length = 3 ∨ f.length = 4) then
    LineResult.ok (header_dep_line f s)
  else if s.got_version_info = false then
    LineResult.ok s
  else if f.length = 1 ∧ ends_with (f.getD 0 "") ":" = true then
    heading_line (f.getD 0 "") s
  else
    match guard_eval f with
    | GuardOutcome.oob => LineResult.oob
    | GuardOutcome.matched => LineResult.ok s
    | GuardOutcome.fall => version_line f s

/-- Parser state at the start of `Parser::parse`: the root node registered
for the (normalized) input path and made current. -/
def init_state (p : String) (pending : Bool) : PState :=
  { path := p, real_path_pending := pending, cur_node := 0,
    got_version_info := false, not_found_node := none,
    nodes := [trim_front p "./"], edges := [] }

/-- Process a sequence of tokenized lines, stopping at the first fatal or
out-of-bounds outcome. -/
def run_lines : PState → List (List String) → LineResult
  | s, [] => LineResult.ok s
  | s, f :: rest =>
    match process_line f s with
    | LineResult.ok s1 => run_lines s1 rest
    | r => r

/-! ## Edge reconciliation (lddgraph.cpp lines 516-549) -/

/-- The loop body of `Parser::trim_unlabeled_edges`: walk the edge list,
keeping an edge unless it is unlabeled and some labeled edge in the full
list `all` shares its destination. -/
def trim_go (all : List Edge) : List Edge → List Edge
  | [] => []
  | e :: rest =>
    if !e.isLabeled && (find_edge_labeled_to all e.to_).isSome then trim_go all rest
    else e :: trim_go all rest

/-- C++ `Parser::trim_unlabeled_edges`. -/
def trim_unlabeled_edges (edges : List Edge) : List Edge :=
  trim_go edges edges

/-! ## Output rendering and main argument check -/

/-- The per-edge attribute emitted by `print_output` (lddgraph.cpp lines
685-694): a label attribute joined with a DOT line break when labeled, the
dotted style otherwise. -/
def edge_render (e : Edge) : String :=
  if e.isLabeled then " [label=" ++ "\"" ++ e.getLabels "\\n" ++ "\"]"
  else " [style=dotted]"

/-- The `main` flag test on one C argument string (NUL-free character
list): `av[1][0] == '-' && av[1][1] != '\0'`. -/
def arg_is_flag : List Char → Bool
  | c0 :: _ :: _ => c0 == '-'
  | _ => false

/-- Whether `main` (lddgraph.cpp lines 733-744) prints the usage diagnostic
and exits with failure, as a function of the user-supplied argument list:
it does so when there are no arguments or when the FIRST argument passes
the flag test. -/
def main_prints_usage : List (List Char) → Bool
  | [] => true
  | a :: _ => arg_is_flag a

/-! ## Reconciliation lemmas -/

theorem opt_isNone_eq_not_isSome (o : Option Nat) : o.isNone = !o.isSome := by
  cases o <;> rfl

theorem trim_go_eq_filter (all l : List Edge) :
    trim_go all l =
      l.filter (fun e => e.isLabeled || (find_edge_labeled_to all e.to_).isNone) := by
  induction l with
  | nil => rfl
  | cons e rest ih =>
    cases hl : e.isLabeled <;> cases ho : find_edge_labeled_to all e.to_ <;>
      simp [trim_go, List.filter_cons, hl, ho, ih]

theorem trim_eq_filter (edges : List Edge) :
    trim_unlabeled_edges edges =
      edges.filter (fun e => e.isLabeled || (find_edge_labeled_to edges e.to_).isNone) :=
  trim_go_eq_filter edges edges

theorem find_edge_labeled_to_eq_none_iff (l : List Edge) (t : Nat) :
    find_edge_labeled_to l t = none ↔
      ∀ e ∈ l, ¬(e.isLabeled = true ∧ e.to_ = t) := by
  induction l with
  | nil => simp [find_edge_labeled_to]
  | cons e rest ih =>
    by_cases h : (e.isLabeled && e.to_ == t) = true
    · have h' : e.isLabeled = true ∧ e.to_ = t := by
        simpa [Bool.and_eq_true, beq_iff_eq] using h
      simp only [find_edge_labeled_to, if_pos h]
      constructor
      · intro hc; exact absurd hc (by simp)
      · intro hall; exact absurd h' (hall e (List.mem_cons_self e rest))
    · have h' : ¬(e.isLabeled = true ∧ e.to_ = t) := by
        intro hc
        exact h (by simp [Bool.and_eq_true, beq_iff_eq, hc.1, hc.2])
      simp only [find_edge_labeled_to, if_neg h]
      rw [Option.map_eq_none']
      constructor
      · intro hrest x hx
        rcases List.mem_cons.mp hx with hxe | hxr
        · exact hxe ▸ h'
        · exact (ih.mp hrest) x hxr
      · intro hall
        exact ih.mpr (fun x hx => hall x (List.mem_cons_of_mem e hx))

theorem find_isSome_eq_any (l : List Edge) (t : Nat) :
    (find_edge_labeled_to l t).isSome =
      l.any (fun e => e.isLabeled && e.to_ == t) := by
  induction l with
  | nil => rfl
  | cons e rest ih =>
    by_cases h : (e.isLabeled && e.to_ == t) = true
    · simp [find_edge_labeled_to, h]
    · cases hf : find_edge_labeled_to rest t <;>
        simp [find_edge_labeled_to, h, hf, ← ih]

theorem any_of_filter_imp (p q : Edge → Bool) (l : List Edge)
    (hpq : ∀ e, q e = true → p e = true) :
    (l.filter p).any q = l.any q := by
  induction l with
  | nil => rfl
  | cons e rest ih =>
    by_cases hp : p e = true
    · simp [List.filter_cons, hp, ih]
    · have hq : q e = false := by
        cases hqe : q e
        · rfl
        · exact absurd (hpq e hqe) hp
      simp [List.filter_cons, hp, hq, ih]

theorem trim_keep_pred_stable (edges : List Edge) (e : Edge) :
    (e.isLabeled || (find_edge_labeled_to (trim_unlabeled_edges edges) e.to_).isNone) =
    (e.isLabeled || (find_edge_labeled_to edges e.to_).isNone) := by
  have hstep := any_of_filter_imp
    (fun x => x.isLabeled || (find_edge_labeled_to edges x.to_).isNone)
    (fun x => x.isLabeled && x.to_ == e.to_) edges
    (fun x hx => by
      have : x.isLabeled = true := by
        simpa using (Bool.and_eq_true _ _ |>.mp hx).1
      simp [this])
  rw [opt_isNone_eq_not_isSome, opt_isNone_eq_not_isSome,
      trim_eq_filter, find_isSome_eq_any, find_isSome_eq_any, hstep]

theorem filter_idem_edges (p : Edge → Bool) (l : List Edge) :
    (l.filter p).filter p = l.filter p := by
  induction l with
  | nil => rfl
  | cons e rest ih =>
    by_cases hp : p e = true
    · simp [List.filter_cons, hp, ih]
    · simp [List.filter_cons, hp, ih]

/-- C1: the edge reconciliation pass drops exactly those edges that are
unlabeled and whose destination node is also the destination of some
labeled edge; every labeled edge and every unlabeled edge whose destination
has no labeled incoming edge is kept (in order), and no edge is added. -/
theorem trim_unlabeled_edges_drops_exactly (edges : List Edge) :
    trim_unlabeled_edges edges =
      edges.filter (fun e => e.isLabeled || (find_edge_labeled_to edges e.to_).isNone) ∧
    (trim_unlabeled_edges edges).Sublist edges ∧
    (∀ e : Edge, e ∈ trim_unlabeled_edges edges ↔
      e ∈ edges ∧ (e.isLabeled = true ∨
        ∀ x ∈ edges, ¬(x.isLabeled = true ∧ x.to_ = e.to_))) := by
  refine ⟨trim_eq_filter edges, ?_, ?_⟩
  · rw [trim_eq_filter]
    exact List.filter_sublist edges
  · intro e
    rw [trim_eq_filter, List.mem_filter]
    simp [Option.isNone_iff_eq_none, find_edge_labeled_to_eq_none_iff]

/-- C6: re-running the reconciliation pass on an already-reconciled edge
sequence is a no-op. -/
theorem trim_unlabeled_edges_idempotent (edges : List Edge) :
    trim_unlabeled_edges (trim_unlabeled_edges edges) = trim_unlabeled_edges edges := by
  conv_lhs => rw [trim_eq_filter]
  rw [List.filter_congr (fun e _ => trim_keep_pred_stable edges e)]
  conv_lhs => rw [trim_eq_filter]
  conv_rhs => rw [trim_eq_filter]
  exact filter_idem_edges _ edges

/-! ## Parser step lemmas -/

theorem header_dep_fields (f : List String) (s : PState) :
    (header_dep_line f s).got_version_info = s.got_version_info ∧
    (header_dep_line f s).cur_node = s.cur_node ∧
    (header_dep_line f s).real_path_pending = s.real_path_pending ∧
    (header_dep_line f s).path = s.path ∧
    ∃ extra, (header_dep_line f s).nodes = s.nodes ++ dep_ident f :: extra := by
  simp only [header_dep_line]
  split
  · split
    · exact ⟨rfl, rfl, rfl, rfl, ["not found"], by simp⟩
    · exact ⟨rfl, rfl, rfl, rfl, [], by simp⟩
  · exact ⟨rfl, rfl, rfl, rfl, [], by simp⟩

theorem process_line_shape (f : List String) (s s' : PState)
    (h : process_line f s = LineResult.ok s') :
    s' = s ∨ s' = { s with got_version_info := true } ∨
    s' = header_dep_line f s ∨
    (s.got_version_info = true ∧ s.real_path_pending = false ∧
      ∃ i, s' = { s with cur_node := i }) ∨
    (s.got_version_info = true ∧ s.real_path_pending = true ∧
      ∃ fld i, s' = { s with nodes := s.nodes.set 0 fld, path := fld,
                             real_path_pending := false, cur_node := i }) ∨
    (∃ es, s' = { s with edges := es }) := by
  unfold process_line at h
  split at h
  · cases h; exact Or.inl rfl
  split at h
  · cases h
  split at h
  · cases h; exact Or.inl rfl
  split at h
  · cases h; exact Or.inr (Or.inl rfl)
  split at h
  · cases h; exact Or.inr (Or.inr (Or.inl rfl))
  split at h
  · cases h; exact Or.inl rfl
  rename_i h5 h6
  have hgot : s.got_version_info = true := by
    cases hgv : s.got_version_info
    · exact absurd hgv h6
    · rfl
  split at h
  · simp only [heading_line] at h
    by_cases hp : s.real_path_pending
    · rw [if_pos hp] at h
      split at h
      · cases h
      · cases h
        exact Or.inr (Or.inr (Or.inr (Or.inr (Or.inl
          ⟨hgot, hp, _, _, rfl⟩))))
    · rw [if_neg hp] at h
      split at h
      · cases h
      · cases h
        exact Or.inr (Or.inr (Or.inr (Or.inl
          ⟨hgot, by simpa using hp, _, rfl⟩)))
  · split at h
    · cases h
    · cases h; exact Or.inl rfl
    · simp only [version_line] at h
      split at h
      · cases h
      split at h
      · cases h
      split at h
      · cases h
      split at h
      · cases h; exact Or.inr (Or.inr (Or.inr (Or.inr (Or.inr ⟨_, rfl⟩))))
      · cases h; exact Or.inr (Or.inr (Or.inr (Or.inr (Or.inr ⟨_, rfl⟩))))

theorem headD_append_of_ne_nil (l y : List String) (hl : l ≠ []) :
    (l ++ y).headD "" = l.headD "" := by
  cases l
  · exact absurd rfl hl
  · rfl

theorem step_preserves (f : List String) (s s' : PState)
    (h : process_line f s = LineResult.ok s') :
    (s.got_version_info = true → s'.got_version_info = true) ∧
    (s.got_version_info = false → s'.cur_node = s.cur_node) ∧
    (s.real_path_pending = false → s'.real_path_pending = false ∧ s'.path = s.path) ∧
    (s.nodes ≠ [] → s'.nodes ≠ []) ∧
    (s.real_path_pending = false → s.nodes ≠ [] →
      s'.nodes.headD "" = s.nodes.headD "") := by
  rcases process_line_shape f s s' h with rfl | rfl | rfl |
    ⟨hg, hp, i, rfl⟩ | ⟨hg, hp, fld, i, rfl⟩ | ⟨es, rfl⟩
  · simp
  · simp
  · obtain ⟨h1, h2, h3, h4, extra, h5⟩ := header_dep_fields f s
    refine ⟨fun hgv => by rw [h1]; exact hgv, fun _ => h2,
      fun hpf => ⟨by rw [h3]; exact hpf, h4⟩, fun hne => ?_, fun _ hne => ?_⟩
    · rw [h5]; simp
    · rw [h5]
      exact headD_append_of_ne_nil s.nodes (dep_ident f :: extra) hne
  · simp [hg]
  · simp [hg, hp]
  · simp

/-- Invariant maintained by the parser: the arena is never empty (the root
node is created first) and, while still in header mode, the current source
node is the root (index 0). -/
def PInv (s : PState) : Prop :=
  s.nodes ≠ [] ∧ (s.got_version_info = false → s.cur_node = 0)

theorem step_pinv (f : List String) (s s' : PState)
    (h : process_line f s = LineResult.ok s') (hs : PInv s) : PInv s' := by
  obtain ⟨hne, hcur⟩ := hs
  have hp := step_preserves f s s' h
  refine ⟨hp.2.2.2.1 hne, fun hg' => ?_⟩
  cases hg : s.got_version_info
  · rw [hp.2.1 hg]
    exact hcur hg
  · have := hp.1 hg
    rw [hg'] at this
    cases this

theorem run_lines_pinv (lines : List (List String)) (s s' : PState)
    (h : run_lines s lines = LineResult.ok s') (hs : PInv s) : PInv s' := by
  induction lines generalizing s with
  | nil =>
    unfold run_lines at h
    cases h
    exact hs
  | cons f rest ih =>
    unfold run_lines at h
    cases hp : process_line f s with
    | ok s1 =>
      rw [hp] at h
      exact ih s1 h (step_pinv f s s1 hp hs)
    | fatal m => rw [hp] at h; cases h
    | oob => rw [hp] at h; cases h

theorem init_state_pinv (p : String) (pending : Bool) : PInv (init_state p pending) :=
  ⟨by simp [init_state], fun _ => rfl⟩

/-- C7: the mode flag switches from header to version-info at most once and
never back: a `Version information:` line in header mode sets the flag and
changes nothing else, the same line with the flag already set leaves the
state exactly unchanged, and no line processing ever clears the flag. -/
theorem version_info_mode_switch_once :
    (∀ s : PState, s.got_version_info = false →
      process_line ["Version", "information:"] s =
        LineResult.ok { s with got_version_info := true }) ∧
    (∀ s : PState, s.got_version_info = true →
      process_line ["Version", "information:"] s = LineResult.ok s) ∧
    (∀ (f : List String) (s s' : PState),
      process_line f s = LineResult.ok s' →
      s.got_version_info = true → s'.got_version_info = true) := by
  refine ⟨fun s _ => rfl, fun s hs => ?_, ?_⟩
  · have h1 : process_line ["Version", "information:"] s =
        LineResult.ok { s with got_version_info := true } := rfl
    rw [h1]
    obtain ⟨p, rp, cn, gv, nf, nd, ed⟩ := s
    simp only at hs
    rw [hs]
  · intro f s s' h hg
    exact (step_preserves f s s' h).1 hg

/-- Witness for C7 at concrete states. -/
theorem version_info_mode_switch_once_w :
    process_line ["Version", "information:"] (init_state "p" false) =
      LineResult.ok { init_state "p" false with got_version_info := true } ∧
    process_line ["Version", "information:"]
        { init_state "p" false with got_version_info := true } =
      LineResult.ok { init_state "p" false with got_version_info := true } ∧
    ({ init_state "p" false with got_version_info := true } : PState).got_version_info
      = true :=
  ⟨version_info_mode_switch_once.1 (init_state "p" false) rfl,
   version_info_mode_switch_once.2.1 _ rfl,
   version_info_mode_switch_once.2.2 []
     { init_state "p" false with got_version_info := true }
     { init_state "p" false with got_version_info := true } rfl rfl⟩

/-- C5: when the real path is pending, a version-info heading line adopts the
stripped path into the root node (index 0) and into the displayed input
path, clears the pending flag and makes the root current; and once the
pending flag is clear, no further line processing changes the flag, the
displayed path, or the root node's path. -/
theorem root_path_adopted_at_most_once :
    (∀ (s : PState) (f0 : String),
      s.real_path_pending = true → s.got_version_info = true → s.nodes ≠ [] →
      ends_with f0 ":" = true →
      process_line [f0] s = LineResult.ok { s with
        nodes := s.nodes.set 0 (trim_front (trim_end f0 ":") "./"),
        path := trim_front (trim_end f0 ":") "./",
        real_path_pending := false,
        cur_node := 0 }) ∧
    (∀ (s s' : PState) (f : List String),
      s.real_path_pending = false → s.nodes ≠ [] →
      process_line f s = LineResult.ok s' →
      s'.real_path_pending = false ∧ s'.path = s.path ∧
      s'.nodes.headD "" = s.nodes.headD "") := by
  constructor
  · intro s f0 hp hg hne hend
    have hstep : process_line [f0] s = heading_line f0 s := by
      unfold process_line
      rw [if_neg (by simp), if_neg (by simp), if_neg (by simp), if_neg (by simp),
          if_neg (by simp [hg]), if_neg (by simp [hg]),
          if_pos (by exact ⟨rfl, by simpa using hend⟩)]
      rfl
    rw [hstep]
    simp only [heading_line]
    rw [if_pos hp]
    obtain ⟨p, rp, cn, gv, nf, nd, ed⟩ := s
    simp only at hne ⊢
    cases nd with
    | nil => exact absurd rfl hne
    | cons x xs => simp [find_existing_node]
  · intro s s' f hp hne h
    have hs := step_preserves f s s' h
    exact ⟨(hs.2.2.1 hp).1, (hs.2.2.1 hp).2, hs.2.2.2.2 hp hne⟩

/-- The parser state of a stdin run that is inside version-info mode and
still waiting for the report to reveal the real input path. -/
def c5_pending_state : PState :=
  { path := "-", real_path_pending := true, cur_node := 0,
    got_version_info := true, not_found_node := none,
    nodes := ["-"], edges := [] }

/-- Witness for C5: the heading `/bin/realprogram:` renames the root node
and the displayed path away from `-`; a step from a non-pending state
changes neither. -/
theorem root_path_adopted_at_most_once_w :
    (process_line ["/bin/realprogram:"] c5_pending_state =
      LineResult.ok { c5_pending_state with
        nodes := List.set ["-"] 0 (trim_front (trim_end "/bin/realprogram:" ":") "./"),
        path := trim_front (trim_end "/bin/realprogram:" ":") "./",
        real_path_pending := false,
        cur_node := 0 }) ∧
    (({ init_state "p" false with got_version_info := true } : PState).real_path_pending
        = false ∧
      ({ init_state "p" false with got_version_info := true } : PState).path
        = (init_state "p" false).path ∧
      ({ init_state "p" false with got_version_info := true } : PState).nodes.headD ""
        = (init_state "p" false).nodes.headD "") :=
  ⟨root_path_adopted_at_most_once.1 c5_pending_state "/bin/realprogram:"
      rfl rfl (by simp [c5_pending_state]) (by decide),
   root_path_adopted_at_most_once.2 (init_state "p" false)
      { init_state "p" false with got_version_info := true }
      ["Version", "information:"] rfl (by simp [init_state]) rfl⟩

/-- C4: in header mode (any state reachable from an initial state and still
before `Version information:`), a 2-, 3- or 4-field direct-dependency line
always registers a brand-new node for the library identifier at a fresh
index — with no deduplicating lookup, whatever nodes already exist — and
appends one unlabeled edge from the root node (index 0) to it; any further
appended edge (the `not found` link) does not come from the root. -/
theorem header_dep_new_node_and_root_edge (p : String) (pending : Bool)
    (lines : List (List String)) (s : PState) (f : List String)
    (hrun : run_lines (init_state p pending) lines = LineResult.ok s)
    (hgot : s.got_version_info = false)
    (hlen : f.length = 2 ∨ f.length = 3 ∨ f.length = 4)
    (hna : ¬(f.length = 4 ∧ f.getD 0 "" = "not" ∧ f.getD 1 "" = "a"))
    (hvi : ¬(f.length = 2 ∧ f.getD 0 "" = "Version" ∧ f.getD 1 "" = "information:")) :
    process_line f s = LineResult.ok (header_dep_line f s) ∧
    (header_dep_line f s).nodes.take (s.nodes.length + 1) =
      s.nodes ++ [dep_ident f] ∧
    (header_dep_line f s).edges.take (s.edges.length + 1) =
      s.edges ++ [Edge.mk 0 s.nodes.length []] ∧
    (∀ e ∈ (header_dep_line f s).edges.drop (s.edges.length + 1), e.from_ ≠ 0) := by
  obtain ⟨hne, hcur0⟩ :=
    run_lines_pinv lines (init_state p pending) s hrun (init_state_pinv p pending)
  have hcur : s.cur_node = 0 := hcur0 hgot
  have hnlen : s.nodes.length ≠ 0 := by
    cases hn : s.nodes
    · exact absurd hn hne
    · simp [hn]
  have hlen0 : ¬(f.length = 0) := by
    rcases hlen with h | h | h <;> simp [h]
  have hlen5 : ¬(f.length = 5 ∧ ends_with (f.getD 0 "") ":" = true ∧
      ends_with (f.getD 1 "") ":" = true ∧
      f.getD 2 "" = "version" ∧ f.getD 4 "" = "not") := by
    intro hc
    rcases hlen with h | h | h <;> rw [h] at hc <;> exact absurd hc.1 (by decide)
  refine ⟨?_, ?_, ?_, ?_⟩
  · unfold process_line
    rw [if_neg hlen0, if_neg hna, if_neg hlen5, if_neg hvi, if_pos ⟨hgot, hlen⟩]
  · simp only [header_dep_line]
    split
    · split
      · exact List.take_left' (by simp)
      · have hl : (s.nodes ++ [dep_ident f]).length = s.nodes.length + 1 := by simp
        rw [← hl, List.take_length]
    · have hl : (s.nodes ++ [dep_ident f]).length = s.nodes.length + 1 := by simp
      rw [← hl, List.take_length]
  · simp only [header_dep_line, hcur]
    split
    · split
      · exact List.take_left' (by simp)
      · exact List.take_left' (by simp)
    · have hl : (s.edges ++ [Edge.mk 0 s.nodes.length []]).length = s.edges.length + 1 := by
        simp
      rw [← hl, List.take_length]
  · simp only [header_dep_line]
    split
    · split
      · rw [List.drop_left' (by simp)]
        intro e he
        rw [List.mem_singleton] at he
        rw [he]
        exact hnlen
      · rw [List.drop_left' (by simp)]
        intro e he
        rw [List.mem_singleton] at he
        rw [he]
        exact hnlen
    · have hl : (s.edges ++ [Edge.mk s.cur_node s.nodes.length []]).length
          = s.edges.length + 1 := by simp
      rw [← hl, List.drop_length]
      intro e he
      cases he

/-- The header dependency line of the C4 scenario. -/
def c4_line : List String := ["libfoo.so.1", "=>", "/usr/lib/libfoo.so.1", "(0x00007f)"]

/-- The initial state of the C4 scenario. -/
def c4_state : PState := init_state "prog" false

/-- Witness for C4: the scenario line from the spec, processed in the
initial header-mode state. -/
theorem header_dep_new_node_and_root_edge_w :
    process_line c4_line c4_state = LineResult.ok (header_dep_line c4_line c4_state) ∧
    (header_dep_line c4_line c4_state).nodes.take (c4_state.nodes.length + 1) =
      c4_state.nodes ++ [dep_ident c4_line] ∧
    (header_dep_line c4_line c4_state).edges.take (c4_state.edges.length + 1) =
      c4_state.edges ++ [Edge.mk 0 c4_state.nodes.length []] ∧
    (∀ e ∈ (header_dep_line c4_line c4_state).edges.drop (c4_state.edges.length + 1),
      e.from_ ≠ 0) :=
  header_dep_new_node_and_root_edge "prog" false [] c4_state c4_line rfl rfl
    (Or.inr (Or.inr rfl)) (by decide) (by decide)

/-- The tokenized report of the C2 scenario: one resolved header dependency,
the mode switch, the root's sub-report heading, and one version-requirement
line naming the same (root, dependency) pair. -/
def c2_lines : List (List String) :=
  [["libfoo.so.1", "=>", "/usr/lib/libfoo.so.1", "(0x00007f)"],
   ["Version", "information:"],
   ["/bin/prog:"],
   ["libfoo.so.1", "(GLIBC_2.2.5)", "=>", "/usr/lib/libfoo.so.1"]]

/-- Start state of the C2 scenario. -/
def c2_start : PState := init_state "/bin/prog" false

/-- The parser state right after the header line of the C2 scenario: one
unlabeled edge from the root to the dependency node. -/
def c2_after_header : PState :=
  { path := "/bin/prog", real_path_pending := false, cur_node := 0,
    got_version_info := false, not_found_node := none,
    nodes := ["/bin/prog", "/usr/lib/libfoo.so.1"],
    edges := [Edge.mk 0 1 []] }

/-- The parser state after the whole C2 scenario, before reconciliation:
the same single edge, now labeled. -/
def c2_final : PState :=
  { path := "/bin/prog", real_path_pending := false, cur_node := 0,
    got_version_info := true, not_found_node := none,
    nodes := ["/bin/prog", "/usr/lib/libfoo.so.1"],
    edges := [Edge.mk 0 1 ["GLIBC_2.2.5"]] }

/-- C2 counterexample: after the header line the edge list holds one
unlabeled edge from the root (node 0) to node 1; after the later
version-information line for the same pair — still before any
reconciliation — the edge list holds that SAME single edge now carrying the
label: the parser merged the label into the header-phase unlabeled edge
instead of leaving it unlabeled and separate. -/
theorem header_edge_gets_label_before_reconciliation :
    run_lines c2_start (c2_lines.take 1) = LineResult.ok c2_after_header ∧
    run_lines c2_start c2_lines = LineResult.ok c2_final ∧
    (Edge.mk 0 1 ([] : List String)).isLabeled = false ∧
    (Edge.mk 0 1 ["GLIBC_2.2.5"]).isLabeled = true :=
  ⟨rfl, rfl, rfl, rfl⟩

/-- The state after a version string `v` is appended to the labels of the
edge at index `i`, as done by the fall-through of `process_line`. -/
def append_label_at (s : PState) (i : Nat) (v : String) : PState :=
  { s with edges := modify_at s.edges i (fun e => { e with labels := e.labels ++ [v] }) }

/-- C2 amended: processing a well-formed version-requirement line appends
the version string to the FIRST existing edge from the current source node
to the destination, whether or not that edge already carries labels; in
particular an unlabeled edge created during the header phase acquires the
label in place, before reconciliation. -/
theorem version_line_appends_to_first_edge (s : PState) (f : List String) (j i : Nat)
    (hgot : s.got_version_info = true)
    (hlen : f.length = 4)
    (hna : ¬(f.getD 0 "" = "not" ∧ f.getD 1 "" = "a"))
    (hj : find_existing_node s.nodes (trim_front (f.getD 3 "") "./") = some j)
    (hi : find_edge_from_to s.edges s.cur_node j = some i) :
    process_line f s =
      LineResult.ok (append_label_at s i (trim_outer_parens (f.getD 1 ""))) := by
  obtain ⟨a, b, c, d, rfl⟩ : ∃ a b c d, f = [a, b, c, d] := by
    cases f with
    | nil => simp at hlen
    | cons a f1 =>
      cases f1 with
      | nil => simp at hlen
      | cons b f2 =>
        cases f2 with
        | nil => simp at hlen
        | cons c f3 =>
          cases f3 with
          | nil => simp at hlen
          | cons d f4 =>
            cases f4 with
            | nil => exact ⟨a, b, c, d, rfl⟩
            | cons x f5 => simp [List.length_cons] at hlen
  unfold process_line
  rw [if_neg (by simp), if_neg (fun hc => hna ⟨hc.2.1, hc.2.2⟩),
      if_neg (by simp), if_neg (by simp),
      if_neg (by simp [hgot]), if_neg (by simp [hgot]), if_neg (by simp)]
  have hguard : guard_eval [a, b, c, d] = GuardOutcome.fall := rfl
  rw [hguard]
  have hj2 : find_existing_node s.nodes (trim_front d "./") = some j := hj
  have hi2 : find_edge_from_to s.edges s.cur_node j = some i := hi
  simp only [version_line, List.get?, hj2, hi2]
  rfl

/-- The mid-scenario state used to witness the amended C2 theorem: version
info mode, root current, one header-created unlabeled edge. -/
def c2_mid : PState :=
  { path := "/bin/prog", real_path_pending := false, cur_node := 0,
    got_version_info := true, not_found_node := none,
    nodes := ["/bin/prog", "/usr/lib/libfoo.so.1"],
    edges := [Edge.mk 0 1 []] }

/-- Witness for the amended C2 theorem at the scenario's version line. -/
theorem version_line_appends_to_first_edge_w :
    process_line ["libfoo.so.1", "(GLIBC_2.2.5)", "=>", "/usr/lib/libfoo.so.1"] c2_mid =
      LineResult.ok (append_label_at c2_mid 0 (trim_outer_parens
        (["libfoo.so.1", "(GLIBC_2.2.5)", "=>", "/usr/lib/libfoo.so.1"].getD 1 ""))) :=
  version_line_appends_to_first_edge c2_mid
    ["libfoo.so.1", "(GLIBC_2.2.5)", "=>", "/usr/lib/libfoo.so.1"] 1 0
    rfl rfl (by decide) (by decide) (by decide)

/-- A version-info-mode parser state with a single registered node, used
for the C3 failing inputs. -/
def c3_state : PState :=
  { path := "prog", real_path_pending := false, cur_node := 0,
    got_version_info := true, not_found_node := none,
    nodes := ["prog"], edges := [] }

/-- C3 (code bug): in version-info mode, lines matching no recognized
pattern are not all warned-and-continued.  The malformed-line guard
condition `f.size() != 4 && has_outer_parens(f[1]) && f[2] == "=>"` negates
only part of the intended well-formedness test, so a 4-field line that is
not of the `lib (version) => path` shape falls through and is processed as
a version line, exiting fatally when its fourth field names no node; 1- and
2-field unrecognized lines read `f[1]` or `f[3]` past the end of the field
vector.  Only nearly-well-formed lines (such as a 3-field one with a
parenthesized second field and `=>`) are warned and continued. -/
theorem unrecognized_version_info_line_not_continued :
    process_line ["a", "b", "c", "d"] c3_state =
      LineResult.fatal "d: cannot find prior reference!" ∧
    process_line ["x", "y"] c3_state = LineResult.oob ∧
    process_line ["lone"] c3_state = LineResult.oob ∧
    process_line ["x", "(v)", "=>"] c3_state = LineResult.ok c3_state :=
  ⟨rfl, rfl, rfl, rfl⟩

/-- C8 counterexample: an empty but readable file (zero bytes obtained by
the header read) is not reported as non-ELF; the sniffer takes the fatal
`fread failed` exit instead of returning false. -/
theorem is_ELF_file_empty_file_fatal :
    is_ELF_file (some []) = ELFCheck.fatal ∧
    is_ELF_file (some []) ≠ ELFCheck.result false :=
  ⟨rfl, by decide⟩

/-- C8 amended: a readable file shorter than the 18-byte header returns
false provided it is non-empty, and a file with mismatched magic bytes
returns false; an unopenable file is fatal, and so is an empty file, whose
zero-byte read takes the `fread failed` exit. -/
theorem is_ELF_file_short_or_bad_magic :
    (∀ bs : List Nat, bs ≠ [] → bs.length < elf_header_len →
      is_ELF_file (some bs) = ELFCheck.result false) ∧
    (∀ bs : List Nat, elf_header_len ≤ bs.length →
      ¬(bs.getD 0 0 = 0x7f ∧ bs.getD 1 0 = 0x45 ∧
        bs.getD 2 0 = 0x4c ∧ bs.getD 3 0 = 0x46) →
      is_ELF_file (some bs) = ELFCheck.result false) ∧
    is_ELF_file none = ELFCheck.fatal ∧
    is_ELF_file (some []) = ELFCheck.fatal := by
  refine ⟨?_, ?_, rfl, rfl⟩
  · intro bs hne hlt
    have hbpos : ¬(bs.length = 0) := fun h => hne (List.length_eq_zero.mp h)
    have hmin : min bs.length elf_header_len = bs.length :=
      Nat.min_eq_left (Nat.le_of_lt hlt)
    simp only [is_ELF_file, hmin]
    rw [if_neg hbpos, if_pos hlt]
  · intro bs hge hmag
    have hmin : min bs.length elf_header_len = elf_header_len :=
      Nat.min_eq_right hge
    simp only [is_ELF_file, hmin]
    rw [if_neg (by decide), if_neg (by decide),
        if_neg (fun hc => hmag ⟨hc.1, hc.2.1, hc.2.2.1, hc.2.2.2.1⟩)]

/-- Witness for the amended C8 theorem: a 1-byte file and an 18-byte file
of zeroes (bad magic) both yield false. -/
theorem is_ELF_file_short_or_bad_magic_w :
    is_ELF_file (some [1]) = ELFCheck.result false ∧
    is_ELF_file (some (List.replicate 18 0)) = ELFCheck.result false :=
  ⟨is_ELF_file_short_or_bad_magic.1 [1] (by decide) (by decide),
   is_ELF_file_short_or_bad_magic.2.1 (List.replicate 18 0) (by decide) (by decide)⟩

/-- C9 counterexample: the second argument `-x` begins with `-` followed by
another character, yet `main` does not print usage for the list
`["file", "-x"]` — only the first argument is tested against the flag
pattern (the program instead fails later when opening `-x`). -/
theorem usage_checks_only_first_argument :
    arg_is_flag ['-', 'x'] = true ∧
    main_prints_usage [['f', 'i', 'l', 'e'], ['-', 'x']] = false :=
  ⟨rfl, rfl⟩

/-- C9 amended: `main` prints the usage diagnostic and exits with failure
exactly when the argument list is empty or its FIRST argument begins with
`-` followed by another character. -/
theorem usage_iff_empty_or_first_flag (args : List (List Char)) :
    main_prints_usage args = true ↔
      (args = [] ∨ ∃ c cs rest, args = ('-' :: c :: cs) :: rest) := by
  cases args with
  | nil => simp [main_prints_usage]
  | cons a rest =>
    cases a with
    | nil => simp [main_prints_usage, arg_is_flag]
    | cons c0 ctail =>
      cases ctail with
      | nil => simp [main_prints_usage, arg_is_flag]
      | cons c1 ctail2 =>
        simp only [main_prints_usage, arg_is_flag, beq_iff_eq]
        constructor
        · intro h
          subst h
          exact Or.inr ⟨c1, ctail2, rest, rfl⟩
        · intro h
          rcases h with h | ⟨c, cs, rest2, heq⟩
          · cases h
          · simp only [List.cons.injEq] at heq
            exact heq.1.1

/-- The edge list used to witness C10: a labeled edge into node 1 alongside
an empty-string-labeled edge into the same node. -/
def c10_edges : List Edge := [Edge.mk 0 1 ["GLIBC_2.2.5"], Edge.mk 2 1 [""]]

/-- C10: an edge is classified as labeled exactly when the space-joined
label list is a non-empty string; bare parentheses `()` produce the empty
version string, and an edge carrying exactly one empty-string label is
treated as unlabeled everywhere — rendered with the dotted style and no
label attribute by the emitter, and dropped by the reconciliation pass
whenever some labeled edge shares its destination. -/
theorem empty_label_edge_is_unlabeled :
    (∀ e : Edge, e.isLabeled = true ↔ e.getLabels " " ≠ "") ∧
    trim_outer_parens "()" = "" ∧
    (∀ fr t : Nat, (Edge.mk fr t [""]).isLabeled = false) ∧
    (∀ fr t : Nat, edge_render (Edge.mk fr t [""]) = " [style=dotted]") ∧
    (∀ (edges : List Edge) (fr t : Nat),
      find_edge_labeled_to edges t ≠ none →
      Edge.mk fr t [""] ∉ trim_unlabeled_edges edges) := by
  refine ⟨?_, rfl, fun fr t => rfl, fun fr t => rfl, ?_⟩
  · intro e
    simp [Edge.isLabeled, bne_iff_ne]
  · intro edges fr t hlab hmem
    rw [trim_eq_filter, List.mem_filter] at hmem
    have hpred := hmem.2
    have h1 : (Edge.mk fr t [""]).isLabeled = false := rfl
    rw [h1] at hpred
    exact hlab (Option.isNone_iff_eq_none.mp (by simpa using hpred))

/-- Witness for C10: the empty-string-labeled edge into node 1 is dropped
because a labeled edge into node 1 exists. -/
theorem empty_label_edge_is_unlabeled_w :
    find_edge_labeled_to c10_edges 1 ≠ none ∧
    Edge.mk 2 1 [""] ∉ trim_unlabeled_edges c10_edges :=
  ⟨by decide, empty_label_edge_is_unlabeled.2.2.2.2 c10_edges 2 1 (by decide)⟩
